import Mathlib

/-
Verification of the libyang string-interning dictionary (dict.c) against its
natural-language specification.

The dictionary stores reference-counted, deduplicated strings in a generic
hash table.  dict.c and hash_table_internal.h are in the repository; the
generic table's implementation (lyht_new / lyht_find /
lyht_insert_with_resize_cb / lyht_remove_with_resize_cb / lyht_free) is only
declared here, so those primitives are modelled from the specification's
contract for them, as marked on each such definition.

Modelling choices:
- C pointers are allocation identifiers (Nat); the allocator heap maps each
  live identifier to the bytes stored in its buffer before the terminating
  NUL byte.  malloc hands out a fresh identifier (nextPtr); free removes the
  identifier from the heap.
- C strings are lists of bytes (Nat); strcmp equality compares the bytes up
  to the first NUL, and strlen counts them.
- The generic table's bucket/chain layout is abstracted to the sequence of
  live records: equal content implies equal hash and hence the same bucket,
  so content lookup over the record sequence coincides with the spec's
  walk of the probed bucket's chain.
- uint32_t arithmetic on reference counts is Nat arithmetic modulo 2^32.
-/

namespace Libyang

/-- LY_ERR result codes used by the dictionary (subset of the library's error
enumeration). -/
inductive LY_ERR where
  | LY_SUCCESS
  | LY_EINVAL
  | LY_EEXIST
  | LY_ENOTFOUND
  | LY_EMEM
  | LY_EINT
  deriving DecidableEq, Repr

/-- Log events emitted by the dictionary: debug traces (LOGDBG), the leak
warning of lydict_clean (LOGWRN, with the leaked bytes and refcount), error
notices (LOGERR, LOGARG), out-of-memory notices (LOGMEM) and internal-error
notices (LOGINT). -/
inductive LogMsg where
  | LOGDBG
  | LOGWRN (bytes : List Nat) (refcount : Nat)
  | LOGERR
  | LOGMEM
  | LOGINT
  deriving DecidableEq, Repr

/-- 2^32, the modulus of uint32_t arithmetic. -/
def U32 : Nat := 2 ^ 32

/-- uint32_t increment (refcount++). -/
def incU32 (x : Nat) : Nat := (x + 1) % U32

/-- uint32_t decrement (refcount--). -/
def decU32 (x : Nat) : Nat := (x + (U32 - 1)) % U32

/-- Bytes of a buffer before its first NUL byte: the part of the buffer that
strcmp and strlen look at. -/
def cstr (v : List Nat) : List Nat := v.takeWhile (fun b => b != 0)

/-- strlen: number of bytes before the first NUL. -/
def strlen (v : List Nat) : Nat := (cstr v).length

/-- strcmp(a, b) == 0: the two C strings agree byte for byte up to the first
NUL. -/
def strcmpEq (a b : List Nat) : Bool := cstr a == cstr b

/-- The allocator heap: each live allocation identifier paired with the bytes
its buffer holds before the terminating NUL. -/
abbrev Heap := List (Nat × List Nat)

/-- Bytes readable at pointer p, none when p is not a live allocation. -/
def heapGet (h : Heap) (p : Nat) : Option (List Nat) :=
  (h.find? (fun q => q.1 == p)).map (fun q => q.2)

/-- Identifiers of the live allocations. -/
def heapKeys (h : Heap) : List Nat := h.map (fun q => q.1)

/-- free(p): the allocation disappears from the heap. -/
def heapFree (h : Heap) (p : Nat) : Heap := h.filter (fun q => q.1 != p)

/-- struct ly_dict_rec (hash_table_internal.h:110-113): the stored string
pointer and its uint32_t reference count. -/
structure DictRec where
  value : Nat
  refcount : Nat
  deriving DecidableEq, Repr

/-- State the dictionary operations touch: the live records of
ctx->dict.hash_tab in table order, the allocator heap, the next fresh
allocation identifier, and the log. -/
structure St where
  tab : List DictRec
  heap : Heap
  nextPtr : Nat
  log : List LogMsg
  deriving DecidableEq, Repr

/-- Application of the dictionary equality callback lydict_val_eq to a stored
record and a probe string: strcmp of the record's string against the probe
bytes.  A record whose pointer is not readable matches nothing. -/
def recMatches (heap : Heap) (r : DictRec) (probe : List Nat) : Bool :=
  match heapGet heap r.value with
  | some s => strcmpEq s probe
  | none => false

/-- Modelled from the spec: the chain walk inside lyht_find (the generic
table's implementation is not under src/).  Starting at index i, return the
first record the equality callback accepts, together with its index. -/
def lyht_findFrom (heap : Heap) (probe : List Nat) : Nat → List DictRec → Option (Nat × DictRec)
  | _, [] => none
  | i, r :: rs =>
    if recMatches heap r probe then some (i, r) else lyht_findFrom heap probe (i + 1) rs

/-- Modelled from the spec: lyht_find (implementation not under src/) walks
the probed bucket's chain calling the equality callback on each candidate and
returns the first match or not-found.  Equal content implies equal hash and
hence the same bucket, so this is the first matching record of the table. -/
def lyht_find (heap : Heap) (tab : List DictRec) (probe : List Nat) : Option (Nat × DictRec) :=
  lyht_findFrom heap probe 0 tab

/-- Outcome of the modelled lyht_insert_with_resize_cb: the error code, the
table afterwards, and the index and contents of the matching record (the
pre-existing one on LY_EEXIST, the freshly stored one on LY_SUCCESS). -/
structure HtIns where
  ret : LY_ERR
  tab : List DictRec
  idx : Nat
  mrec : DictRec
  deriving DecidableEq, Repr

/-- Modelled from the spec: lyht_insert_with_resize_cb (implementation not
under src/).  If find locates an equal existing record it reports LY_EEXIST
and that record without mutating storage; otherwise it stores the probe
record and reports LY_SUCCESS.  Growth of the table rehashes but does not
change the stored record multiset, and a failed growth leaves the already
applied insert in place, so resizing is not modelled; allocation failure
inside the table is outside the claims under verification. -/
def lyht_insert (heap : Heap) (tab : List DictRec) (rec : DictRec) (probe : List Nat) : HtIns :=
  match lyht_find heap tab probe with
  | some (i, m) => { ret := LY_ERR.LY_EEXIST, tab := tab, idx := i, mrec := m }
  | none => { ret := LY_ERR.LY_SUCCESS, tab := tab ++ [rec], idx := tab.length, mrec := rec }

/-- Result of dict_insert: the error code, the value written through str_p
(none when str_p is NULL or nothing was written) and the state afterwards. -/
structure DIRes where
  ret : LY_ERR
  out : Option Nat
  st : St
  deriving DecidableEq, Repr

/-- Embedding of dict_insert (dict.c:172-202).  value is the identifier of
the buffer whose ownership is being transferred; len the length used for the
hash.  The debug trace is logged, the probe record {value, refcount 1} is
handed to the modelled lyht_insert_with_resize_cb; on LY_EEXIST the matching
record's refcount is incremented (uint32_t), the buffer value is freed and
the match's string pointer is returned; on LY_SUCCESS the freshly stored
record's pointer (the buffer itself) is returned. -/
def dict_insert (st : St) (value : Nat) (len : Nat) (strp : Bool) : DIRes :=
  let st1 : St := { st with log := st.log ++ [LogMsg.LOGDBG] }
  let content := (heapGet st1.heap value).getD []
  let r := lyht_insert st1.heap st1.tab { value := value, refcount := 1 } content
  if r.ret = LY_ERR.LY_EEXIST then
    { ret := LY_ERR.LY_SUCCESS,
      out := if strp then some r.mrec.value else none,
      st := { st1 with
              tab := st1.tab.set r.idx { r.mrec with refcount := incU32 r.mrec.refcount },
              heap := heapFree st1.heap value } }
  else
    { ret := LY_ERR.LY_SUCCESS,
      out := if strp then some r.mrec.value else none,
      st := { st1 with tab := r.tab } }

/-- Effective length used by lydict_insert (dict.c:217-219): a zero length
means the input is scanned for its NUL terminator. -/
def effLen (v : List Nat) (len : Nat) : Nat := if len = 0 then strlen v else len

/-- Result of the public insert entry points: the error code, the value
written through str_p (none when nothing was written, some none when *str_p
was set to NULL, some (some p) when *str_p was set to pointer p), the state
afterwards, and whether the dictionary mutex was taken. -/
structure InsRes where
  ret : LY_ERR
  strp : Option (Option Nat)
  st : St
  lockTaken : Bool
  deriving DecidableEq, Repr

/-- Embedding of lydict_insert (dict.c:204-232).  ctx and strpGiven model
whether the context and str_p pointers are non-null; value models the bytes
readable at the input pointer (none for a NULL input); mallocOk models
whether the malloc of the private copy succeeds.  The argument check returns
LY_EINVAL (logging the argument error); a NULL value sets *str_p to NULL and
succeeds without touching the table; otherwise a private copy of the first
effLen bytes plus a NUL terminator is allocated at a fresh identifier and,
under the lock, handed to dict_insert. -/
def lydict_insert (ctx : Bool) (st : St) (value : Option (List Nat)) (len : Nat)
    (strpGiven : Bool) (mallocOk : Bool) : InsRes :=
  if !ctx || !strpGiven then
    { ret := LY_ERR.LY_EINVAL, strp := none,
      st := { st with log := st.log ++ [LogMsg.LOGERR] }, lockTaken := false }
  else
    match value with
    | none => { ret := LY_ERR.LY_SUCCESS, strp := some none, st := st, lockTaken := false }
    | some v =>
      if !mallocOk then
        { ret := LY_ERR.LY_EMEM, strp := none,
          st := { st with log := st.log ++ [LogMsg.LOGMEM] }, lockTaken := false }
      else
        let p := st.nextPtr
        let st1 : St := { st with heap := (p, v.take (effLen v len)) :: st.heap,
                                  nextPtr := st.nextPtr + 1 }
        let r := dict_insert st1 p (effLen v len) true
        { ret := r.ret, strp := r.out.map some, st := r.st, lockTaken := true }

/-- Embedding of lydict_insert_zc (dict.c:234-251).  value is the identifier
of the caller-owned, NUL-terminated buffer (none for a NULL input).  After
the argument check and NULL handling, the buffer itself is handed to
dict_insert under the lock with its strlen as the length. -/
def lydict_insert_zc (ctx : Bool) (st : St) (value : Option Nat) (strpGiven : Bool) : InsRes :=
  if !ctx || !strpGiven then
    { ret := LY_ERR.LY_EINVAL, strp := none,
      st := { st with log := st.log ++ [LogMsg.LOGERR] }, lockTaken := false }
  else
    match value with
    | none => { ret := LY_ERR.LY_SUCCESS, strp := some none, st := st, lockTaken := false }
    | some p =>
      let v := (heapGet st.heap p).getD []
      let r := dict_insert st p (strlen v) true
      { ret := r.ret, strp := r.out.map some, st := r.st, lockTaken := true }

/-- Result of lydict_remove: the error code, the state afterwards, and
whether the dictionary mutex was taken. -/
structure RemRes where
  ret : LY_ERR
  st : St
  lockTaken : Bool
  deriving DecidableEq, Repr

/-- Embedding of lydict_remove (dict.c:119-170).  ctx models whether the
context pointer is non-null; value the bytes readable at the caller's string
pointer (none for NULL).  A NULL context or value returns LY_SUCCESS at once.
Otherwise, under the lock, the record is looked up by content with the
modelled lyht_find; on a match its refcount is decremented (uint32_t) and, if
it reached zero, the record is unlinked - lyht_remove_with_resize_cb,
modelled from the spec, removes exactly the matching record and reports
LY_SUCCESS - and its string buffer freed; a miss logs the error and returns
LY_ENOTFOUND unchanged. -/
def lydict_remove (ctx : Bool) (st : St) (value : Option (List Nat)) : RemRes :=
  if !ctx then { ret := LY_ERR.LY_SUCCESS, st := st, lockTaken := false }
  else
    match value with
    | none => { ret := LY_ERR.LY_SUCCESS, st := st, lockTaken := false }
    | some v =>
      let st1 : St := { st with log := st.log ++ [LogMsg.LOGDBG] }
      match lyht_find st1.heap st1.tab v with
      | some (i, m) =>
        let rc := decU32 m.refcount
        if rc = 0 then
          { ret := LY_ERR.LY_SUCCESS,
            st := { st1 with tab := st1.tab.eraseIdx i, heap := heapFree st1.heap m.value },
            lockTaken := true }
        else
          { ret := LY_ERR.LY_SUCCESS,
            st := { st1 with tab := st1.tab.set i { m with refcount := rc } },
            lockTaken := true }
      | none =>
        { ret := LY_ERR.LY_ENOTFOUND,
          st := { st1 with log := st1.log ++ [LogMsg.LOGERR] }, lockTaken := true }

/-- Leak warnings lydict_clean emits: one LOGWRN per record still present,
carrying the record's string bytes and refcount. -/
def cleanWarns (heap : Heap) (tab : List DictRec) : List LogMsg :=
  tab.map (fun r => LogMsg.LOGWRN ((heapGet heap r.value).getD []) r.refcount)

/-- Embedding of lydict_clean (dict.c:64-93).  The source scans the table's
record slots and, for each slot it deems occupied, logs a leak warning and -
only in builds where NDEBUG is defined (the ndebug flag) - frees the
record's string; then the table is freed (its records disappear) and the
mutex destroyed.  Two points cannot be translated literally: the occupancy
test reads rec->hits, a field struct ly_ht_rec (hash_table_internal.h:44-48)
does not have, and the slot address is computed as i * rec_size where
lyht_get_rec uses the 8-byte-aligned record size; the scan is modelled as the
intended iteration over the live records. -/
def lydict_clean (ndebug : Bool) (st : St) : St :=
  let heap1 := if ndebug then st.tab.foldl (fun h r => heapFree h r.value) st.heap else st.heap
  { tab := [], heap := heap1, nextPtr := st.nextPtr,
    log := st.log ++ cleanWarns st.heap st.tab }

/-- View of struct ly_dict_rec as the equality callbacks see it: value is the
byte content at the stored char pointer, none when that pointer is NULL. -/
structure DictRecV where
  value : Option (List Nat)
  refcount : Nat
  deriving DecidableEq, Repr

/-- Embedding of lydict_val_eq (dict.c:36-52).  NULL record arguments or NULL
stored strings yield 0 (after logging); otherwise 1 exactly when strcmp of
the two strings returns 0.  The mod flag and cb_data are ignored by the
source. -/
def lydict_val_eq (val1_p val2_p : Option DictRecV) (mod : Bool) (cb_data : Unit) : Nat :=
  match val1_p, val2_p with
  | some r1, some r2 =>
    match r1.value, r2.value with
    | some str1, some str2 => if strcmpEq str1 str2 then 1 else 0
    | _, _ => 0
  | _, _ => 0

/-- Embedding of lydict_resize_val_eq (dict.c:95-117).  NULL record arguments
or NULL stored strings yield 0; with mod set the strings are compared by
strcmp directly, with mod clear the call defers to lydict_val_eq. -/
def lydict_resize_val_eq (val1_p val2_p : Option DictRecV) (mod : Bool) (cb_data : Unit) : Nat :=
  match val1_p, val2_p with
  | some r1, some r2 =>
    match r1.value, r2.value with
    | some str1, some str2 =>
      if mod then (if strcmpEq str1 str2 then 1 else 0)
      else lydict_val_eq val1_p val2_p mod cb_data
    | _, _ => 0
  | _, _ => 0

/-- Well-formedness of a state: every live allocation identifier and every
record's string pointer is below the next fresh identifier (what a run of the
allocator guarantees). -/
def WFb (st : St) : Bool :=
  (heapKeys st.heap).all (fun k => decide (k < st.nextPtr)) &&
  st.tab.all (fun r => decide (r.value < st.nextPtr))

/-- Iterated lydict_insert of the same value and length with non-null
arguments and a working allocator, collecting each call's result. -/
def insertN (v : List Nat) (len : Nat) : Nat → St → List InsRes × St
  | 0, st => ([], st)
  | n + 1, st =>
    let r := lydict_insert true st (some v) len true true
    let rest := insertN v len n r.st
    (r :: rest.1, rest.2)

/-- Number of leak warnings in a log. -/
def countWarns (l : List LogMsg) : Nat :=
  (l.filter (fun m => match m with | LogMsg.LOGWRN _ _ => true | _ => false)).length

/-- Bytes of the string eth0. -/
def eth0 : List Nat := [101, 116, 104, 48]

/-- A NUL-terminated buffer holding eth0. -/
def eth0buf : List Nat := [101, 116, 104, 48, 0]

/-- The empty dictionary state, as after lydict_init on a fresh allocator. -/
def st0 : St := { tab := [], heap := [], nextPtr := 0, log := [] }

/-- A state holding one interned string eth0 with refcount 1: what one
lydict_insert of eth0 into the empty state leaves behind (modulo the log). -/
def stLeak : St :=
  { tab := [{ value := 0, refcount := 1 }], heap := [(0, eth0)], nextPtr := 1, log := [] }

/-- A state holding one interned string eth0 with refcount 2. -/
def stTwo : St :=
  { tab := [{ value := 0, refcount := 2 }], heap := [(0, eth0)], nextPtr := 1, log := [] }

/-- A state holding one interned string eth0 with refcount 1 plus a second,
separately allocated caller-owned buffer with the same bytes (identifier 1),
as handed to lydict_insert_zc. -/
def stZc : St :=
  { tab := [{ value := 0, refcount := 1 }], heap := [(1, eth0buf), (0, eth0)],
    nextPtr := 2, log := [] }

/-- The two callbacks agree record-wise once the stored strings are non-null. -/
theorem resize_val_eq_agrees (r1 r2 : DictRecV) (s1 s2 : List Nat) (mod : Bool)
    (h1 : r1.value = some s1) (h2 : r2.value = some s2) :
    lydict_resize_val_eq (some r1) (some r2) mod () =
      lydict_val_eq (some r1) (some r2) mod () := by
  cases r1 with
  | mk v1 rc1 =>
    cases r2 with
    | mk v2 rc2 =>
      cases h1
      cases h2
      cases mod <;> simp [lydict_resize_val_eq, lydict_val_eq]

/-- C4: for every pair of dictionary records whose stored string values are
non-null and for both values of the mode flag, the resize-time equality
callback and the ordinary lookup equality callback agree:
lydict_resize_val_eq returns 1 exactly when lydict_val_eq returns 1 (both
reduce to byte-for-byte string-content comparison). -/
theorem C4_resize_and_lookup_eq_callbacks_agree (r1 r2 : DictRecV) (s1 s2 : List Nat)
    (mod : Bool) (h1 : r1.value = some s1) (h2 : r2.value = some s2) :
    lydict_resize_val_eq (some r1) (some r2) mod () = 1 ↔
      lydict_val_eq (some r1) (some r2) mod () = 1 := by
  rw [resize_val_eq_agrees r1 r2 s1 s2 mod h1 h2]

/-- Witness for C4 at a concrete pair of records holding eth0, mode set. -/
theorem C4_resize_and_lookup_eq_callbacks_agree_witness :
    (DictRecV.mk (some eth0) 1).value = some eth0 ∧
    (DictRecV.mk (some eth0) 5).value = some eth0 ∧
    (lydict_resize_val_eq (some (DictRecV.mk (some eth0) 1))
        (some (DictRecV.mk (some eth0) 5)) true () = 1 ↔
      lydict_val_eq (some (DictRecV.mk (some eth0) 1))
        (some (DictRecV.mk (some eth0) 5)) true () = 1) :=
  ⟨rfl, rfl,
    C4_resize_and_lookup_eq_callbacks_agree (DictRecV.mk (some eth0) 1)
      (DictRecV.mk (some eth0) 5) eth0 eth0 true rfl rfl⟩

/-- C8: when the malloc of the private copy fails, lydict_insert returns
LY_EMEM after logging the failure; the table and heap are untouched, nothing
is written through str_p and the lock is never taken. -/
theorem C8_insert_oom_leaves_table_unchanged (st : St) (v : List Nat) (len : Nat) :
    lydict_insert true st (some v) len true false =
      { ret := LY_ERR.LY_EMEM, strp := none,
        st := { st with log := st.log ++ [LogMsg.LOGMEM] }, lockTaken := false } := rfl

/-- C9: a NULL input string makes lydict_insert a no-op that sets the output
pointer to NULL and returns LY_SUCCESS without taking the lock, and a NULL
context or NULL string pointer makes lydict_remove return LY_SUCCESS at once
without taking the lock and without mutating any state. -/
theorem C9_null_inputs_are_successful_noops (st : St) (len : Nat) (mallocOk : Bool)
    (v : Option (List Nat)) :
    lydict_insert true st none len true mallocOk =
      { ret := LY_ERR.LY_SUCCESS, strp := some none, st := st, lockTaken := false } ∧
    lydict_remove false st v =
      { ret := LY_ERR.LY_SUCCESS, st := st, lockTaken := false } ∧
    lydict_remove true st none =
      { ret := LY_ERR.LY_SUCCESS, st := st, lockTaken := false } :=
  ⟨rfl, rfl, rfl⟩

/-- C10: calling lydict_insert or lydict_insert_zc with a NULL str_p returns
LY_EINVAL immediately (logging the argument error), without taking the lock
and without touching the table or the heap. -/
theorem C10_null_strp_rejected_einval (st : St) (v : Option (List Nat)) (len : Nat)
    (mallocOk : Bool) (q : Option Nat) :
    lydict_insert true st v len false mallocOk =
      { ret := LY_ERR.LY_EINVAL, strp := none,
        st := { st with log := st.log ++ [LogMsg.LOGERR] }, lockTaken := false } ∧
    lydict_insert_zc true st q false =
      { ret := LY_ERR.LY_EINVAL, strp := none,
        st := { st with log := st.log ++ [LogMsg.LOGERR] }, lockTaken := false } :=
  ⟨rfl, rfl⟩

/-- C3: evaluation of lydict_clean at a state holding one leaked record (the
string eth0 with refcount 1).  The leak warning is emitted exactly once, but
in a build without NDEBUG the leaked string's storage is still allocated
after the clean, while with NDEBUG defined it is freed - the reclamation the
claim promises unconditionally is compiled in only for NDEBUG builds (and
the occupancy test the source uses reads rec->hits, a field struct ly_ht_rec
does not have). -/
theorem C3_clean_without_ndebug_keeps_leaked_storage :
    countWarns (lydict_clean false stLeak).log = 1 ∧
    heapGet (lydict_clean false stLeak).heap 0 = some eth0 ∧
    countWarns (lydict_clean true stLeak).log = 1 ∧
    heapGet (lydict_clean true stLeak).heap 0 = none := by decide

theorem heapGet_cons_self (h : Heap) (q : Nat) (c : List Nat) :
    heapGet ((q, c) :: h) q = some c := by
  simp [heapGet]

theorem heapGet_cons_ne (h : Heap) (q x : Nat) (c : List Nat) (hne : x ≠ q) :
    heapGet ((q, c) :: h) x = heapGet h x := by
  simp [heapGet, List.find?_cons, Ne.symm hne]

theorem heapFree_of_not_mem (h : Heap) (q : Nat) (hq : ∀ x ∈ heapKeys h, x ≠ q) :
    heapFree h q = h := by
  apply List.filter_eq_self.mpr
  intro e he
  have : e.1 ≠ q := hq e.1 (by simp [heapKeys]; exact ⟨e.2, he⟩)
  simpa using this

theorem heapFree_cons_self (h : Heap) (q : Nat) (c : List Nat)
    (hq : ∀ x ∈ heapKeys h, x ≠ q) : heapFree ((q, c) :: h) q = h := by
  simp [heapFree, List.filter_cons]
  intro a b hab
  exact hq a (by simp [heapKeys]; exact ⟨b, hab⟩)

theorem heapGet_free_ne (h : Heap) (q x : Nat) (hne : x ≠ q) :
    heapGet (heapFree h q) x = heapGet h x := by
  induction h with
  | nil => rfl
  | cons e t ih =>
    rcases e with ⟨a, b⟩
    by_cases hq : a = q
    · subst hq
      have h1 : heapFree ((a, b) :: t) a = heapFree t a := by
        simp [heapFree, List.filter_cons]
      rw [h1, ih, heapGet_cons_ne t a x b hne]
    · have h1 : heapFree ((a, b) :: t) q = (a, b) :: heapFree t q := by
        simp [heapFree, List.filter_cons, hq]
      rw [h1]
      by_cases hx : a = x
      · subst hx
        rw [heapGet_cons_self, heapGet_cons_self]
      · rw [heapGet_cons_ne _ _ _ _ (Ne.symm hx), ih, heapGet_cons_ne _ _ _ _ (Ne.symm hx)]

theorem not_mem_heapKeys_free (h : Heap) (q : Nat) : q ∉ heapKeys (heapFree h q) := by
  simp [heapKeys, heapFree, List.mem_map, List.mem_filter]

theorem strcmpEq_refl (a : List Nat) : strcmpEq a a = true := by
  simp [strcmpEq]

theorem recMatches_cons_ne (h : Heap) (q : Nat) (c : List Nat) (r : DictRec)
    (probe : List Nat) (hne : r.value ≠ q) :
    recMatches ((q, c) :: h) r probe = recMatches h r probe := by
  simp [recMatches, heapGet_cons_ne h q r.value c hne]

theorem lyht_findFrom_eq_none_iff (heap : Heap) (probe : List Nat) (tab : List DictRec) :
    ∀ i, lyht_findFrom heap probe i tab = none ↔
      ∀ r ∈ tab, recMatches heap r probe = false := by
  induction tab with
  | nil => intro i; simp [lyht_findFrom]
  | cons r rs ih =>
    intro i
    by_cases hm : recMatches heap r probe
    · simp [lyht_findFrom, hm]
    · simp [lyht_findFrom, hm, ih (i + 1)]

theorem lyht_find_eq_none_iff (heap : Heap) (tab : List DictRec) (probe : List Nat) :
    lyht_find heap tab probe = none ↔ ∀ r ∈ tab, recMatches heap r probe = false :=
  lyht_findFrom_eq_none_iff heap probe tab 0

theorem lyht_findFrom_append_last (heap : Heap) (probe : List Nat) (rec : DictRec)
    (hrec : recMatches heap rec probe = true) :
    ∀ (tab0 : List DictRec) (i : Nat),
      (∀ r ∈ tab0, recMatches heap r probe = false) →
      lyht_findFrom heap probe i (tab0 ++ [rec]) = some (i + tab0.length, rec) := by
  intro tab0
  induction tab0 with
  | nil => intro i _; simp [lyht_findFrom, hrec]
  | cons r rs ih =>
    intro i h0
    have hr : recMatches heap r probe = false := h0 r (by simp)
    have hrest := ih (i + 1) (fun r hrm => h0 r (by simp [hrm]))
    simp [lyht_findFrom, hr, hrest]
    omega

theorem lyht_find_append_last (heap : Heap) (tab0 : List DictRec) (rec : DictRec)
    (probe : List Nat) (h0 : ∀ r ∈ tab0, recMatches heap r probe = false)
    (hrec : recMatches heap rec probe = true) :
    lyht_find heap (tab0 ++ [rec]) probe = some (tab0.length, rec) := by
  have := lyht_findFrom_append_last heap probe rec hrec tab0 0 h0
  simpa [lyht_find] using this

theorem list_set_append_length (tab0 : List DictRec) (a b : DictRec) :
    (tab0 ++ [a]).set tab0.length b = tab0 ++ [b] := by
  induction tab0 with
  | nil => rfl
  | cons r rs ih => simp [List.set, ih]

theorem U32_eq : U32 = 4294967296 := by norm_num [U32]

theorem decU32_eq (x : Nat) (h1 : 1 ≤ x) (h2 : x < U32) : decU32 x = x - 1 := by
  rw [U32_eq] at h2
  rw [decU32, U32_eq]
  omega

theorem incU32_eq (x : Nat) (h : x + 1 < U32) : incU32 x = x + 1 := by
  rw [U32_eq] at h
  rw [incU32, U32_eq]
  exact Nat.mod_eq_of_lt h

theorem WFb_heap_lt (st : St) (hWF : WFb st = true) :
    ∀ x ∈ heapKeys st.heap, x < st.nextPtr := by
  simp [WFb, List.all_eq_true] at hWF
  exact hWF.1

theorem WFb_tab_lt (st : St) (hWF : WFb st = true) :
    ∀ r ∈ st.tab, r.value < st.nextPtr := by
  simp [WFb, List.all_eq_true] at hWF
  exact hWF.2

/-- C2: a remove whose string content is found decrements the record's
refcount by exactly one; at refcount zero the record leaves the table and its
backing string is freed, otherwise the record stays with its value pointer
unchanged and the heap untouched; the call reports LY_SUCCESS. -/
theorem C2_remove_found_decrements (st : St) (v : List Nat) (i : Nat) (m : DictRec)
    (hfind : lyht_find st.heap st.tab v = some (i, m))
    (h1 : 1 ≤ m.refcount) (h2 : m.refcount < U32) :
    (lydict_remove true st (some v)).ret = LY_ERR.LY_SUCCESS ∧
    (m.refcount = 1 →
      (lydict_remove true st (some v)).st.tab = st.tab.eraseIdx i ∧
      (lydict_remove true st (some v)).st.heap = heapFree st.heap m.value) ∧
    (2 ≤ m.refcount →
      (lydict_remove true st (some v)).st.tab =
        st.tab.set i { m with refcount := m.refcount - 1 } ∧
      (lydict_remove true st (some v)).st.heap = st.heap) := by
  have hdec : decU32 m.refcount = m.refcount - 1 := decU32_eq m.refcount h1 h2
  by_cases hone : m.refcount = 1
  · have hz : decU32 m.refcount = 0 := by rw [hdec, hone]
    refine ⟨?_, fun _ => ⟨?_, ?_⟩, fun hge => absurd hge (by omega)⟩ <;>
      simp [lydict_remove, hfind, hz]
  · have hnz : ¬(m.refcount - 1 = 0) := by omega
    refine ⟨?_, fun h1eq => absurd h1eq hone, fun hge => ⟨?_, ?_⟩⟩ <;>
      simp [lydict_remove, hfind, hdec, hnz]

/-- Witness for C2 at a state holding eth0 with refcount 2, removed once. -/
theorem C2_remove_found_decrements_witness :
    (lydict_remove true stTwo (some eth0)).ret = LY_ERR.LY_SUCCESS ∧
    ((DictRec.mk 0 2).refcount = 1 →
      (lydict_remove true stTwo (some eth0)).st.tab = stTwo.tab.eraseIdx 0 ∧
      (lydict_remove true stTwo (some eth0)).st.heap = heapFree stTwo.heap 0) ∧
    (2 ≤ (DictRec.mk 0 2).refcount →
      (lydict_remove true stTwo (some eth0)).st.tab =
        stTwo.tab.set 0 { DictRec.mk 0 2 with refcount := (DictRec.mk 0 2).refcount - 1 } ∧
      (lydict_remove true stTwo (some eth0)).st.heap = stTwo.heap) :=
  C2_remove_found_decrements stTwo eth0 0 (DictRec.mk 0 2) (by decide) (by decide) (by decide)

/-- C5: a remove whose string content is not in the table returns
LY_ENOTFOUND (distinguishable from LY_SUCCESS), logs the error and mutates
nothing: the records, the heap and the next allocation identifier are
unchanged. -/
theorem C5_remove_not_found_no_mutation (st : St) (v : List Nat)
    (hfind : lyht_find st.heap st.tab v = none) :
    (lydict_remove true st (some v)).ret = LY_ERR.LY_ENOTFOUND ∧
    LY_ERR.LY_ENOTFOUND ≠ LY_ERR.LY_SUCCESS ∧
    (lydict_remove true st (some v)).st.tab = st.tab ∧
    (lydict_remove true st (some v)).st.heap = st.heap ∧
    (lydict_remove true st (some v)).st.nextPtr = st.nextPtr ∧
    (lydict_remove true st (some v)).st.log = st.log ++ [LogMsg.LOGDBG, LogMsg.LOGERR] := by
  refine ⟨?_, by decide, ?_, ?_, ?_, ?_⟩ <;> simp [lydict_remove, hfind]

/-- Witness for C5: removing eth0 from the empty dictionary. -/
theorem C5_remove_not_found_no_mutation_witness :
    (lydict_remove true st0 (some eth0)).ret = LY_ERR.LY_ENOTFOUND ∧
    LY_ERR.LY_ENOTFOUND ≠ LY_ERR.LY_SUCCESS ∧
    (lydict_remove true st0 (some eth0)).st.tab = st0.tab ∧
    (lydict_remove true st0 (some eth0)).st.heap = st0.heap ∧
    (lydict_remove true st0 (some eth0)).st.nextPtr = st0.nextPtr ∧
    (lydict_remove true st0 (some eth0)).st.log = st0.log ++ [LogMsg.LOGDBG, LogMsg.LOGERR] :=
  C5_remove_not_found_no_mutation st0 eth0 (by decide)

theorem dict_insert_fresh (st : St) (p : Nat) (len : Nat) (c : List Nat)
    (hp : heapGet st.heap p = some c)
    (habs : ∀ r ∈ st.tab, recMatches st.heap r c = false) :
    dict_insert st p len true =
      { ret := LY_ERR.LY_SUCCESS, out := some p,
        st := St.mk (st.tab ++ [DictRec.mk p 1]) st.heap st.nextPtr
                (st.log ++ [LogMsg.LOGDBG]) } := by
  have hfind : lyht_find st.heap st.tab c = none :=
    (lyht_find_eq_none_iff st.heap st.tab c).mpr habs
  simp [dict_insert, lyht_insert, hp, hfind]

theorem dict_insert_dup (st : St) (q : Nat) (len : Nat) (c : List Nat) (i : Nat) (m : DictRec)
    (hq : heapGet st.heap q = some c)
    (hfind : lyht_find st.heap st.tab c = some (i, m)) :
    dict_insert st q len true =
      { ret := LY_ERR.LY_SUCCESS, out := some m.value,
        st := St.mk (st.tab.set i { m with refcount := incU32 m.refcount })
                (heapFree st.heap q) st.nextPtr (st.log ++ [LogMsg.LOGDBG]) } := by
  simp [dict_insert, lyht_insert, hq, hfind]

theorem lydict_insert_fresh (st : St) (v : List Nat) (len : Nat)
    (hWF : WFb st = true)
    (habs : lyht_find st.heap st.tab (v.take (effLen v len)) = none) :
    lydict_insert true st (some v) len true true =
      { ret := LY_ERR.LY_SUCCESS, strp := some (some st.nextPtr),
        st := St.mk (st.tab ++ [DictRec.mk st.nextPtr 1])
                ((st.nextPtr, v.take (effLen v len)) :: st.heap)
                (st.nextPtr + 1) (st.log ++ [LogMsg.LOGDBG]),
        lockTaken := true } := by
  have habs0 : ∀ r ∈ st.tab, recMatches st.heap r (v.take (effLen v len)) = false :=
    (lyht_find_eq_none_iff st.heap st.tab (v.take (effLen v len))).mp habs
  have habs1 : ∀ r ∈ st.tab,
      recMatches ((st.nextPtr, v.take (effLen v len)) :: st.heap) r (v.take (effLen v len))
        = false := by
    intro r hr
    rw [recMatches_cons_ne st.heap st.nextPtr (v.take (effLen v len)) r (v.take (effLen v len))
      (Nat.ne_of_lt (WFb_tab_lt st hWF r hr))]
    exact habs0 r hr
  have hdi := dict_insert_fresh
    (St.mk st.tab ((st.nextPtr, v.take (effLen v len)) :: st.heap) (st.nextPtr + 1) st.log)
    st.nextPtr (effLen v len) (v.take (effLen v len))
    (heapGet_cons_self st.heap st.nextPtr (v.take (effLen v len))) habs1
  simp [lydict_insert, hdi]

/-- C6: inserting content not yet in the dictionary stores exactly the first
effective-length bytes of the input in a freshly allocated private copy - the
effective length being the given length, or the distance to the NUL
terminator when the given length is zero - and returns that fresh pointer
with the record stored at refcount 1.  (The buffer also carries a trailing
NUL terminator; the heap records the bytes before it.) -/
theorem C6_insert_allocates_exact_copy (st : St) (v : List Nat) (len : Nat)
    (hWF : WFb st = true)
    (habs : lyht_find st.heap st.tab (v.take (effLen v len)) = none) :
    st.nextPtr ∉ heapKeys st.heap ∧
    (lydict_insert true st (some v) len true true).ret = LY_ERR.LY_SUCCESS ∧
    (lydict_insert true st (some v) len true true).strp = some (some st.nextPtr) ∧
    heapGet (lydict_insert true st (some v) len true true).st.heap st.nextPtr =
      some (v.take (effLen v len)) ∧
    (lydict_insert true st (some v) len true true).st.tab =
      st.tab ++ [DictRec.mk st.nextPtr 1] ∧
    (len = 0 → effLen v len = strlen v) := by
  have hfresh := lydict_insert_fresh st v len hWF habs
  refine ⟨?_, ?_, ?_, ?_, ?_, fun h => by simp [effLen, h]⟩
  · intro hmem
    exact absurd (WFb_heap_lt st hWF st.nextPtr hmem) (by omega)
  · rw [hfresh]
  · rw [hfresh]
  · rw [hfresh]
    exact heapGet_cons_self st.heap st.nextPtr (v.take (effLen v len))
  · rw [hfresh]

/-- Witness for C6: first insert of the NUL-terminated buffer eth0 with
length zero into the empty dictionary. -/
theorem C6_insert_allocates_exact_copy_witness :
    st0.nextPtr ∉ heapKeys st0.heap ∧
    (lydict_insert true st0 (some eth0buf) 0 true true).ret = LY_ERR.LY_SUCCESS ∧
    (lydict_insert true st0 (some eth0buf) 0 true true).strp = some (some st0.nextPtr) ∧
    heapGet (lydict_insert true st0 (some eth0buf) 0 true true).st.heap st0.nextPtr =
      some (eth0buf.take (effLen eth0buf 0)) ∧
    (lydict_insert true st0 (some eth0buf) 0 true true).st.tab =
      st0.tab ++ [DictRec.mk st0.nextPtr 1] ∧
    (0 = 0 → effLen eth0buf 0 = strlen eth0buf) :=
  C6_insert_allocates_exact_copy st0 eth0buf 0 (by decide) (by decide)

/-- C7: for lydict_insert_zc on a caller-owned buffer q holding bytes v - if
the content is already interned as record m (distinct from q), the caller's
buffer is freed, m's refcount is incremented by exactly one and m's own
string pointer (still allocated) is returned; if the content is new, q
itself becomes the stored value with refcount 1, with no copy made and no
allocation or deallocation performed. -/
theorem C7_insert_zc_dup_frees_and_returns_existing (st : St) (q : Nat) (v : List Nat)
    (hq : heapGet st.heap q = some v) :
    (∀ i m, lyht_find st.heap st.tab v = some (i, m) → m.value ≠ q →
      m.refcount + 1 < U32 →
      (lydict_insert_zc true st (some q) true).ret = LY_ERR.LY_SUCCESS ∧
      (lydict_insert_zc true st (some q) true).strp = some (some m.value) ∧
      q ∉ heapKeys (lydict_insert_zc true st (some q) true).st.heap ∧
      heapGet (lydict_insert_zc true st (some q) true).st.heap m.value =
        heapGet st.heap m.value ∧
      (lydict_insert_zc true st (some q) true).st.tab =
        st.tab.set i { m with refcount := m.refcount + 1 }) ∧
    (lyht_find st.heap st.tab v = none →
      (lydict_insert_zc true st (some q) true).ret = LY_ERR.LY_SUCCESS ∧
      (lydict_insert_zc true st (some q) true).strp = some (some q) ∧
      (lydict_insert_zc true st (some q) true).st.tab = st.tab ++ [DictRec.mk q 1] ∧
      (lydict_insert_zc true st (some q) true).st.heap = st.heap ∧
      (lydict_insert_zc true st (some q) true).st.nextPtr = st.nextPtr) := by
  constructor
  · intro i m hfind hne hrc
    have hdi := dict_insert_dup st q (strlen v) v i m hq hfind
    have hinc : incU32 m.refcount = m.refcount + 1 := incU32_eq m.refcount hrc
    have hzc : lydict_insert_zc true st (some q) true =
        { ret := LY_ERR.LY_SUCCESS, strp := some (some m.value),
          st := St.mk (st.tab.set i { m with refcount := incU32 m.refcount })
                  (heapFree st.heap q) st.nextPtr (st.log ++ [LogMsg.LOGDBG]),
          lockTaken := true } := by
      simp [lydict_insert_zc, hq, hdi]
    rw [hzc]
    refine ⟨rfl, rfl, ?_, ?_, ?_⟩
    · exact not_mem_heapKeys_free st.heap q
    · exact heapGet_free_ne st.heap q m.value hne
    · rw [hinc]
  · intro hfind
    have habs : ∀ r ∈ st.tab, recMatches st.heap r v = false :=
      (lyht_find_eq_none_iff st.heap st.tab v).mp hfind
    have hdi := dict_insert_fresh st q (strlen v) v hq habs
    have hzc : lydict_insert_zc true st (some q) true =
        { ret := LY_ERR.LY_SUCCESS, strp := some (some q),
          st := St.mk (st.tab ++ [DictRec.mk q 1]) st.heap st.nextPtr
                  (st.log ++ [LogMsg.LOGDBG]),
          lockTaken := true } := by
      simp [lydict_insert_zc, hq, hdi]
    rw [hzc]
    exact ⟨rfl, rfl, rfl, rfl, rfl⟩

/-- Witness for C7: handing a second eth0 buffer (identifier 1) to
lydict_insert_zc while eth0 is already interned at identifier 0. -/
theorem C7_insert_zc_dup_frees_and_returns_existing_witness :
    (lydict_insert_zc true stZc (some 1) true).ret = LY_ERR.LY_SUCCESS ∧
    (lydict_insert_zc true stZc (some 1) true).strp = some (some 0) ∧
    1 ∉ heapKeys (lydict_insert_zc true stZc (some 1) true).st.heap ∧
    heapGet (lydict_insert_zc true stZc (some 1) true).st.heap 0 = heapGet stZc.heap 0 ∧
    (lydict_insert_zc true stZc (some 1) true).st.tab =
      stZc.tab.set 0 { DictRec.mk 0 1 with refcount := (DictRec.mk 0 1).refcount + 1 } :=
  (C7_insert_zc_dup_frees_and_returns_existing stZc 1 eth0buf (by decide)).1
    0 (DictRec.mk 0 1) (by decide) (by decide) (by decide)

theorem lydict_insert_dup_step (tab0 : List DictRec) (h0 : Heap) (p np j : Nat)
    (L : List LogMsg) (v : List Nat) (len : Nat)
    (htab0 : ∀ r ∈ tab0, r.value < p)
    (hh0 : ∀ x ∈ heapKeys h0, x < p)
    (hpn : p < np)
    (hnm : ∀ r ∈ tab0,
      recMatches ((p, v.take (effLen v len)) :: h0) r (v.take (effLen v len)) = false)
    (hj : j + 1 < U32) :
    lydict_insert true
        (St.mk (tab0 ++ [DictRec.mk p j]) ((p, v.take (effLen v len)) :: h0) np L)
        (some v) len true true =
      { ret := LY_ERR.LY_SUCCESS, strp := some (some p),
        st := St.mk (tab0 ++ [DictRec.mk p (j + 1)]) ((p, v.take (effLen v len)) :: h0)
                (np + 1) (L ++ [LogMsg.LOGDBG]),
        lockTaken := true } := by
  have hpq : p ≠ np := Nat.ne_of_lt hpn
  have hnm1 : ∀ r ∈ tab0,
      recMatches ((np, v.take (effLen v len)) :: (p, v.take (effLen v len)) :: h0) r
        (v.take (effLen v len)) = false := by
    intro r hr
    rw [recMatches_cons_ne _ np (v.take (effLen v len)) r _
      (Nat.ne_of_lt (Nat.lt_trans (htab0 r hr) hpn))]
    exact hnm r hr
  have hrecm : recMatches ((np, v.take (effLen v len)) :: (p, v.take (effLen v len)) :: h0)
      (DictRec.mk p j) (v.take (effLen v len)) = true := by
    rw [recMatches_cons_ne _ np (v.take (effLen v len)) (DictRec.mk p j) _ hpq]
    simp [recMatches, heapGet_cons_self, strcmpEq_refl]
  have hfind := lyht_find_append_last
    ((np, v.take (effLen v len)) :: (p, v.take (effLen v len)) :: h0) tab0 (DictRec.mk p j)
    (v.take (effLen v len)) hnm1 hrecm
  have hdi := dict_insert_dup
    (St.mk (tab0 ++ [DictRec.mk p j])
      ((np, v.take (effLen v len)) :: (p, v.take (effLen v len)) :: h0) (np + 1) L)
    np (effLen v len) (v.take (effLen v len)) tab0.length (DictRec.mk p j)
    (heapGet_cons_self _ np (v.take (effLen v len))) hfind
  have hkeys : ∀ x ∈ heapKeys ((p, v.take (effLen v len)) :: h0), x ≠ np := by
    intro x hx
    simp [heapKeys] at hx
    rcases hx with hx | hx
    · rcases hx with ⟨b, hb, rfl⟩
      exact hpq
    · rcases hx with ⟨b, hb⟩
      have : x ∈ heapKeys h0 := by simp [heapKeys]; exact ⟨b, hb⟩
      exact Nat.ne_of_lt (Nat.lt_trans (hh0 x this) hpn)
  have hfreeq : heapFree ((np, v.take (effLen v len)) :: (p, v.take (effLen v len)) :: h0) np
      = (p, v.take (effLen v len)) :: h0 :=
    heapFree_cons_self ((p, v.take (effLen v len)) :: h0) np (v.take (effLen v len)) hkeys
  have hset : (tab0 ++ [DictRec.mk p j]).set tab0.length (DictRec.mk p (incU32 j)) =
      tab0 ++ [DictRec.mk p (incU32 j)] :=
    list_set_append_length tab0 (DictRec.mk p j) (DictRec.mk p (incU32 j))
  have hinc : incU32 j = j + 1 := incU32_eq j hj
  simp [lydict_insert, hdi, hfreeq, hset, hinc]

theorem insertN_dup_loop (v : List Nat) (len : Nat) (tab0 : List DictRec) (h0 : Heap) (p : Nat)
    (htab0 : ∀ r ∈ tab0, r.value < p)
    (hh0 : ∀ x ∈ heapKeys h0, x < p)
    (hnm : ∀ r ∈ tab0,
      recMatches ((p, v.take (effLen v len)) :: h0) r (v.take (effLen v len)) = false) :
    ∀ (k j np : Nat) (L : List LogMsg), p < np → j + k < U32 →
      (∀ r ∈ (insertN v len k
          (St.mk (tab0 ++ [DictRec.mk p j]) ((p, v.take (effLen v len)) :: h0) np L)).1,
        r.ret = LY_ERR.LY_SUCCESS ∧ r.strp = some (some p)) ∧
      (insertN v len k
          (St.mk (tab0 ++ [DictRec.mk p j]) ((p, v.take (effLen v len)) :: h0) np L)).2 =
        St.mk (tab0 ++ [DictRec.mk p (j + k)]) ((p, v.take (effLen v len)) :: h0) (np + k)
          (L ++ List.replicate k LogMsg.LOGDBG) := by
  intro k
  induction k with
  | zero =>
    intro j np L hpn hjk
    constructor
    · intro r hr
      simp [insertN] at hr
    · simp [insertN]
  | succ n ih =>
    intro j np L hpn hjk
    have hstep := lydict_insert_dup_step tab0 h0 p np j L v len htab0 hh0 hpn hnm (by omega)
    have hih := ih (j + 1) (np + 1) (L ++ [LogMsg.LOGDBG]) (by omega) (by omega)
    have hunf : insertN v len (n + 1)
        (St.mk (tab0 ++ [DictRec.mk p j]) ((p, v.take (effLen v len)) :: h0) np L) =
        ({ ret := LY_ERR.LY_SUCCESS, strp := some (some p),
           st := St.mk (tab0 ++ [DictRec.mk p (j + 1)]) ((p, v.take (effLen v len)) :: h0)
                   (np + 1) (L ++ [LogMsg.LOGDBG]),
           lockTaken := true } ::
          (insertN v len n
            (St.mk (tab0 ++ [DictRec.mk p (j + 1)]) ((p, v.take (effLen v len)) :: h0)
              (np + 1) (L ++ [LogMsg.LOGDBG]))).1,
         (insertN v len n
            (St.mk (tab0 ++ [DictRec.mk p (j + 1)]) ((p, v.take (effLen v len)) :: h0)
              (np + 1) (L ++ [LogMsg.LOGDBG]))).2) := by
      simp [insertN, hstep]
    rw [hunf]
    constructor
    · intro r hr
      rcases List.mem_cons.mp hr with hr | hr
      · subst hr
        exact ⟨rfl, rfl⟩
      · exact hih.1 r hr
    · rw [hih.2]
      have h1 : j + 1 + n = j + (n + 1) := by omega
      have h2 : np + 1 + n = np + (n + 1) := by omega
      have h3 : (L ++ [LogMsg.LOGDBG]) ++ List.replicate n LogMsg.LOGDBG =
          L ++ List.replicate (n + 1) LogMsg.LOGDBG := by
        simp [List.replicate_succ]
      rw [h1, h2, h3]

/-- C1: starting from a well-formed dictionary state that does not contain
the content, N successful lydict_insert calls of the same string all return
the identical backing pointer - the identifier the first call's private copy
was allocated at - and leave exactly one record for it whose refcount equals
N; every subsequent call's private copy has been discarded, the heap holding
only the first call's copy. -/
theorem C1_insert_dedup_refcount (st : St) (v : List Nat) (len N : Nat)
    (hWF : WFb st = true)
    (habs : lyht_find st.heap st.tab (v.take (effLen v len)) = none)
    (hN : 1 ≤ N) (hNU : N < U32) :
    (∀ r ∈ (insertN v len N st).1,
      r.ret = LY_ERR.LY_SUCCESS ∧ r.strp = some (some st.nextPtr)) ∧
    (insertN v len N st).2.tab = st.tab ++ [DictRec.mk st.nextPtr N] ∧
    (insertN v len N st).2.heap = (st.nextPtr, v.take (effLen v len)) :: st.heap := by
  obtain ⟨n, rfl⟩ : ∃ n, N = n + 1 := ⟨N - 1, by omega⟩
  have hfresh := lydict_insert_fresh st v len hWF habs
  have habs0 : ∀ r ∈ st.tab, recMatches st.heap r (v.take (effLen v len)) = false :=
    (lyht_find_eq_none_iff st.heap st.tab (v.take (effLen v len))).mp habs
  have hnm : ∀ r ∈ st.tab,
      recMatches ((st.nextPtr, v.take (effLen v len)) :: st.heap) r (v.take (effLen v len))
        = false := by
    intro r hr
    rw [recMatches_cons_ne st.heap st.nextPtr (v.take (effLen v len)) r _
      (Nat.ne_of_lt (WFb_tab_lt st hWF r hr))]
    exact habs0 r hr
  have hloop := insertN_dup_loop v len st.tab st.heap st.nextPtr (WFb_tab_lt st hWF)
    (WFb_heap_lt st hWF) hnm n 1 (st.nextPtr + 1) (st.log ++ [LogMsg.LOGDBG])
    (by omega) (by omega)
  have hunf : insertN v len (n + 1) st =
      ({ ret := LY_ERR.LY_SUCCESS, strp := some (some st.nextPtr),
         st := St.mk (st.tab ++ [DictRec.mk st.nextPtr 1])
                 ((st.nextPtr, v.take (effLen v len)) :: st.heap)
                 (st.nextPtr + 1) (st.log ++ [LogMsg.LOGDBG]),
         lockTaken := true } ::
        (insertN v len n
          (St.mk (st.tab ++ [DictRec.mk st.nextPtr 1])
            ((st.nextPtr, v.take (effLen v len)) :: st.heap)
            (st.nextPtr + 1) (st.log ++ [LogMsg.LOGDBG]))).1,
       (insertN v len n
          (St.mk (st.tab ++ [DictRec.mk st.nextPtr 1])
            ((st.nextPtr, v.take (effLen v len)) :: st.heap)
            (st.nextPtr + 1) (st.log ++ [LogMsg.LOGDBG]))).2) := by
    simp [insertN, hfresh]
  rw [hunf]
  refine ⟨?_, ?_, ?_⟩
  · intro r hr
    rcases List.mem_cons.mp hr with hr | hr
    · subst hr
      exact ⟨rfl, rfl⟩
    · exact hloop.1 r hr
  · rw [hloop.2]
    have h1 : 1 + n = n + 1 := by omega
    rw [h1]
  · rw [hloop.2]

/-- Witness for C1: three inserts of the buffer eth0 into the empty
dictionary all return pointer 0 and leave refcount 3. -/
theorem C1_insert_dedup_refcount_witness :
    (∀ r ∈ (insertN eth0buf 0 3 st0).1,
      r.ret = LY_ERR.LY_SUCCESS ∧ r.strp = some (some st0.nextPtr)) ∧
    (insertN eth0buf 0 3 st0).2.tab = st0.tab ++ [DictRec.mk st0.nextPtr 3] ∧
    (insertN eth0buf 0 3 st0).2.heap = (st0.nextPtr, eth0buf.take (effLen eth0buf 0)) :: st0.heap :=
  C1_insert_dedup_refcount st0 eth0buf 0 3 (by decide) (by decide) (by decide) (by decide)

end Libyang
